import Mathlib

/-!
Shallow embedding of the resilience primitives of this repository: the
resilient HTTP client with retry loop and circuit breaker, the gRPC
connection pool, and the LRU cache.

Conventions of the embedding:
- time is modelled as integer milliseconds (Go time.Time / time.Duration);
- the float64 arithmetic of the backoff computation is modelled over the
  rationals; the random draw rand.Float64 in [0, 1) is passed explicitly;
- the channel of the connection pool becomes a FIFO list, handles become
  natural-number identifiers handed out by the factory counter;
- the doubly linked recency list of the LRU cache becomes a list of
  key-value pairs, most recently used first.
-/

/-- Error message returned by checkCircuitBreaker while the breaker is Open. -/
def breakerOpenMsg : String := "circuit breaker is open"

/-- Message prefix of the HTTP status error built in DoWithRetry. -/
def httpErrPre : String := "HTTP error: "

/-- Circuit breaker state constants CircuitState (Closed, Open, HalfOpen). -/
inductive CircuitState
  | Closed
  | Open
  | HalfOpen
  deriving DecidableEq

/-- RetryConfig of the resilient client. Durations are rationals (ms). -/
structure RetryConfig where
  MaxRetries : Nat
  BaseDelay : ℚ
  MaxDelay : ℚ
  Multiplier : ℚ
  deriving DecidableEq

/-- CircuitBreakerConfig of the resilient client. Durations in ms. -/
structure CircuitBreakerConfig where
  MaxFailures : Nat
  ResetTimeout : Int
  FailureTimeout : Int
  deriving DecidableEq

/-- ResilientHTTPClient: the configs plus the mutable breaker fields
(failures, lastFailTime, state). The embedded HTTPClient, which only
performs transport, is outside the model. -/
structure ResilientHTTPClient where
  retryConfig : RetryConfig
  circuitBreakerConfig : CircuitBreakerConfig
  failures : Nat
  lastFailTime : Int
  state : CircuitState
  deriving DecidableEq

/-- NewResilientHTTPClient: the default configuration (100ms base delay,
5s max delay, multiplier 2, 3 retries; 5 max failures, 60s reset timeout,
10s failure timeout), breaker Closed with zero failures. -/
def NewResilientHTTPClient : ResilientHTTPClient :=
  { retryConfig :=
      { MaxRetries := 3, BaseDelay := 100, MaxDelay := 5000, Multiplier := 2 },
    circuitBreakerConfig :=
      { MaxFailures := 5, ResetTimeout := 60000, FailureTimeout := 10000 },
    failures := 0,
    lastFailTime := 0,
    state := CircuitState.Closed }

/-- checkCircuitBreaker: in Open, move to HalfOpen when
now - lastFailTime > ResetTimeout (strict) and admit, otherwise reject with
the breaker-open error; in HalfOpen and Closed, admit. Returns the error
(if any) together with the updated client. -/
def checkCircuitBreaker (now : Int) (c : ResilientHTTPClient) :
    Option String × ResilientHTTPClient :=
  match c.state with
  | CircuitState.Open =>
      if c.circuitBreakerConfig.ResetTimeout < now - c.lastFailTime then
        (none, { c with state := CircuitState.HalfOpen })
      else
        (some breakerOpenMsg, c)
  | CircuitState.HalfOpen => (none, c)
  | CircuitState.Closed => (none, c)

/-- recordSuccess: reset failures to 0 and set the state to Closed. -/
def recordSuccess (c : ResilientHTTPClient) : ResilientHTTPClient :=
  { c with failures := 0, state := CircuitState.Closed }

/-- recordFailure: increment failures, stamp lastFailTime with now, and
open the breaker once failures has reached MaxFailures. -/
def recordFailure (now : Int) (c : ResilientHTTPClient) : ResilientHTTPClient :=
  { c with
    failures := c.failures + 1,
    lastFailTime := now,
    state :=
      if c.circuitBreakerConfig.MaxFailures ≤ c.failures + 1 then CircuitState.Open
      else c.state }

/-- calculateDelay: BaseDelay * Multiplier ^ (attempt - 1), plus a jitter of
r * 0.1 of that value where r is the rand.Float64 draw in [0, 1), clamped
to MaxDelay from above. -/
def calculateDelay (c : ResilientHTTPClient) (attempt : Nat) (r : ℚ) : ℚ :=
  let delay := c.retryConfig.BaseDelay * c.retryConfig.Multiplier ^ (attempt - 1)
  let jitter := r * (1 / 10) * delay
  let delay2 := delay + jitter
  if c.retryConfig.MaxDelay < delay2 then c.retryConfig.MaxDelay else delay2

/-- Deterministic component of calculateDelay: the jitter term dropped,
before clamping. -/
def calculateDelayDet (c : ResilientHTTPClient) (attempt : Nat) : ℚ :=
  c.retryConfig.BaseDelay * c.retryConfig.Multiplier ^ (attempt - 1)

/-- isSuccessStatusCode: 2xx. -/
def isSuccessStatusCode (code : Nat) : Bool :=
  200 ≤ code && code < 300

/-- Outcome of one doRequest call: a transport error (err != nil) or a
response carrying a status code. -/
inductive AttemptResult
  | netErr (msg : String)
  | httpResp (status : Nat)
  deriving DecidableEq

/-- shouldRetry: any transport error retries; of the HTTP statuses exactly
429, 500, 502, 503, 504 retry. -/
def shouldRetry : AttemptResult → Bool
  | AttemptResult.netErr _ => true
  | AttemptResult.httpResp status =>
      status == 429 || status == 500 || status == 502 || status == 503 || status == 504

/-- A retryable failure: not a 2xx success, and shouldRetry accepts it. -/
def retryableFailure : AttemptResult → Bool
  | AttemptResult.netErr _ => true
  | AttemptResult.httpResp status =>
      !isSuccessStatusCode status && shouldRetry (AttemptResult.httpResp status)

/-- The error string DoWithRetry stores in lastErr for a failed attempt. -/
def attemptErrString : AttemptResult → String
  | AttemptResult.netErr msg => msg
  | AttemptResult.httpResp status => httpErrPre ++ toString status

/-- Observable outcome of the retry loop of DoWithRetry. -/
structure LoopOut where
  successStatus : Option Nat
  lastErr : Option String
  sleeps : List ℚ
  opCalls : Nat
  deriving DecidableEq

/-- The retry loop of DoWithRetry: attempt counts up while remaining
(initially MaxRetries + 1) counts down; before every attempt after the
first the computed delay is slept (recorded in sleeps); a 2xx response
returns success; a retryable failure stores lastErr and continues; a
non-retryable failure breaks out of the loop. -/
def retryLoop (c : ResilientHTTPClient) (outcomes : Nat → AttemptResult)
    (jit : Nat → ℚ) :
    Nat → Nat → Option String → List ℚ → Nat → LoopOut
  | _, 0, lastErr, sleeps, calls => ⟨none, lastErr, sleeps, calls⟩
  | attempt, remaining + 1, lastErr, sleeps, calls =>
      let sleeps2 :=
        if 0 < attempt then sleeps ++ [calculateDelay c attempt (jit attempt)]
        else sleeps
      match outcomes attempt with
      | AttemptResult.netErr msg =>
          retryLoop c outcomes jit (attempt + 1) remaining
            (some (attemptErrString (AttemptResult.netErr msg))) sleeps2 (calls + 1)
      | AttemptResult.httpResp status =>
          if isSuccessStatusCode status then
            ⟨some status, lastErr, sleeps2, calls + 1⟩
          else if shouldRetry (AttemptResult.httpResp status) then
            retryLoop c outcomes jit (attempt + 1) remaining
              (some (attemptErrString (AttemptResult.httpResp status))) sleeps2 (calls + 1)
          else
            ⟨none, some (attemptErrString (AttemptResult.httpResp status)), sleeps2, calls + 1⟩

/-- Result of DoWithRetry together with its observable trace: the number
of doRequest invocations, the slept delays, the final client, and how
often recordFailure and recordSuccess ran. -/
inductive RetryOutcome
  | breakerOpen (msg : String)
  | success (status : Nat)
  | failed (attempts : Nat) (lastErr : Option String)
  deriving DecidableEq

structure DoResult where
  outcome : RetryOutcome
  opCalls : Nat
  sleeps : List ℚ
  client : ResilientHTTPClient
  recordFailureCalls : Nat
  recordSuccessCalls : Nat
  deriving DecidableEq

/-- DoWithRetry: check the breaker (reject immediately on error), then run
the retry loop for attempts 0..MaxRetries; a success records a success, any
other exit records one failure and returns the aggregated error naming
MaxRetries + 1 attempts and wrapping lastErr. The doRequest outcomes and
the jitter draws are passed as oracles; now is the time of the breaker
check, nowEnd the time of the terminal recordFailure. -/
def DoWithRetry (now nowEnd : Int) (c : ResilientHTTPClient)
    (outcomes : Nat → AttemptResult) (jit : Nat → ℚ) : DoResult :=
  match checkCircuitBreaker now c with
  | (some msg, c1) => ⟨RetryOutcome.breakerOpen msg, 0, [], c1, 0, 0⟩
  | (none, c1) =>
      let lo := retryLoop c outcomes jit 0 (c.retryConfig.MaxRetries + 1) none [] 0
      match lo.successStatus with
      | some status =>
          ⟨RetryOutcome.success status, lo.opCalls, lo.sleeps, recordSuccess c1, 0, 1⟩
      | none =>
          ⟨RetryOutcome.failed (c.retryConfig.MaxRetries + 1) lo.lastErr,
            lo.opCalls, lo.sleeps, recordFailure nowEnd c1, 1, 0⟩

/-- GRPCConnectionPool: the buffered channel becomes a FIFO list bounded by
capacity (the channel buffer size), the factory becomes a counter handing
out fresh handle identifiers. The address string is irrelevant here. -/
structure GRPCConnectionPool where
  available : List Nat
  capacity : Nat
  nextId : Nat
  closed : Bool
  deriving DecidableEq

/-- NewGRPCConnectionPool: eagerly creates poolSize connections (handles
0..poolSize-1, all succeeding) and fills the channel with them. -/
def NewGRPCConnectionPool (poolSize : Nat) : GRPCConnectionPool :=
  { available := List.range poolSize,
    capacity := poolSize,
    nextId := poolSize,
    closed := false }

/-- Get: error when closed; otherwise take a connection from the channel
and return it when its state is Ready or Idle (modelled by the healthy
predicate); on an unhealthy connection, or on an empty channel, dial a new
connection via the factory. -/
def GRPCConnectionPool.Get (healthy : Nat → Bool) (p : GRPCConnectionPool) :
    Option Nat × GRPCConnectionPool :=
  if p.closed then (none, p)
  else
    match p.available with
    | conn :: rest =>
        if healthy conn then (some conn, { p with available := rest })
        else (some p.nextId, { p with available := rest, nextId := p.nextId + 1 })
    | [] => (some p.nextId, { p with nextId := p.nextId + 1 })

/-- Put: when closed, close the connection; when the channel has room,
send the connection back; when the channel is full, close the connection. -/
def GRPCConnectionPool.Put (p : GRPCConnectionPool) (conn : Nat) : GRPCConnectionPool :=
  if p.closed then p
  else if p.available.length < p.capacity then { p with available := p.available ++ [conn] }
  else p

/-- A pool together with the handles currently checked out by callers, to
state occupancy properties of Get / Put sequences. -/
structure PoolSim where
  pool : GRPCConnectionPool
  checkedOut : List Nat
  deriving DecidableEq

def PoolSim.acquire (healthy : Nat → Bool) (s : PoolSim) : PoolSim :=
  match GRPCConnectionPool.Get healthy s.pool with
  | (some conn, p) => ⟨p, conn :: s.checkedOut⟩
  | (none, p) => ⟨p, s.checkedOut⟩

def PoolSim.release (s : PoolSim) : PoolSim :=
  match s.checkedOut with
  | [] => s
  | conn :: rest => ⟨GRPCConnectionPool.Put s.pool conn, rest⟩

inductive PoolOp
  | acquire
  | release
  deriving DecidableEq

def runPoolOps (healthy : Nat → Bool) : List PoolOp → PoolSim → PoolSim
  | [], s => s
  | PoolOp.acquire :: rest, s => runPoolOps healthy rest (s.acquire healthy)
  | PoolOp.release :: rest, s => runPoolOps healthy rest s.release

/-- LRUCache: the doubly linked recency list and the hash index become one
list of key-value pairs, most recently used first; the back of the Go list
is the last element here. -/
structure LRUCache (V : Type) where
  capacity : Nat
  entries : List (String × V)
  deriving DecidableEq

/-- The map lookup lru.cache[key] of the Go code. -/
def lookupKey {V : Type} (k : String) : List (String × V) → Option V
  | [] => none
  | e :: es => if e.1 = k then some e.2 else lookupKey k es

/-- Removal of the list element carrying key k (the MoveToFront and
eviction bookkeeping of the Go code). -/
def eraseKey {V : Type} (k : String) : List (String × V) → List (String × V)
  | [] => []
  | e :: es => if e.1 = k then es else e :: eraseKey k es

/-- Get: on a hit, move the entry to the front (most recently used) and
return its value; on a miss, mutate nothing. -/
def LRUCache.Get {V : Type} (lru : LRUCache V) (k : String) :
    Option V × LRUCache V :=
  match lookupKey k lru.entries with
  | some v => (some v, { lru with entries := (k, v) :: eraseKey k lru.entries })
  | none => (none, lru)

/-- Put: an existing key gets the new value and moves to the front; a new
key is pushed to the front, and when the length then exceeds capacity the
back element (least recently used) is removed. -/
def LRUCache.Put {V : Type} (lru : LRUCache V) (k : String) (v : V) : LRUCache V :=
  match lookupKey k lru.entries with
  | some _ => { lru with entries := (k, v) :: eraseKey k lru.entries }
  | none =>
      let l := (k, v) :: lru.entries
      if lru.capacity < l.length then { lru with entries := l.dropLast }
      else { lru with entries := l }

inductive CacheOp (V : Type)
  | put (k : String) (v : V)
  | get (k : String)

def runCacheOps {V : Type} : List (CacheOp V) → LRUCache V → LRUCache V
  | [], lru => lru
  | CacheOp.put k v :: rest, lru => runCacheOps rest (lru.Put k v)
  | CacheOp.get k :: rest, lru => runCacheOps rest (lru.Get k).2

/-- A transport error message used in concrete scenarios. -/
def boomMsg : String := "boom"

/-- Cache keys used in concrete scenarios. -/
def keyA : String := "a"

def keyB : String := "b"

def keyC : String := "c"

/-- A concrete client: breaker threshold 3, reset timeout 60000 ms, retry
config MaxRetries 2 (three attempts), base 100 ms, max 5000 ms, multiplier 2. -/
def exampleClient : ResilientHTTPClient :=
  { retryConfig := { MaxRetries := 2, BaseDelay := 100, MaxDelay := 5000, Multiplier := 2 },
    circuitBreakerConfig := { MaxFailures := 3, ResetTimeout := 60000, FailureTimeout := 10000 },
    failures := 0, lastFailTime := 0, state := CircuitState.Closed }

/-- The concrete client in Half-Open. -/
def halfOpenClient : ResilientHTTPClient :=
  { exampleClient with failures := 2, lastFailTime := 0, state := CircuitState.HalfOpen }

/-- The concrete client in Open, opened at time 0. -/
def openClient : ResilientHTTPClient :=
  { exampleClient with failures := 3, lastFailTime := 0, state := CircuitState.Open }

/-- Iterating recordFailure from a Closed client with zero failures: after
k + 1 calls the failure count is k + 1, the failure time is stamped, and
the state is Open exactly once the count has reached MaxFailures. -/
theorem recordFailure_iterate_closed (now : Int) (c : ResilientHTTPClient)
    (hs : c.state = CircuitState.Closed) (hf : c.failures = 0) (k : Nat) :
    (recordFailure now)^[k + 1] c =
      { c with
        failures := k + 1,
        lastFailTime := now,
        state :=
          if k + 1 < c.circuitBreakerConfig.MaxFailures then CircuitState.Closed
          else CircuitState.Open } := by
  induction k with
  | zero =>
      rw [Function.iterate_one]
      unfold recordFailure
      rw [hf, hs]
      by_cases h : c.circuitBreakerConfig.MaxFailures ≤ 0 + 1
      · have h2 : ¬ (0 + 1 < c.circuitBreakerConfig.MaxFailures) := by omega
        simp [h, h2]
      · have h2 : 0 + 1 < c.circuitBreakerConfig.MaxFailures := by omega
        simp [h, h2]
  | succ k ih =>
      rw [Function.iterate_succ_apply', ih]
      unfold recordFailure
      by_cases hk : k + 1 < c.circuitBreakerConfig.MaxFailures
      · rw [if_pos hk]
        by_cases h : c.circuitBreakerConfig.MaxFailures ≤ k + 1 + 1
        · have h2 : ¬ (k + 1 + 1 < c.circuitBreakerConfig.MaxFailures) := by omega
          simp [h, h2]
        · have h2 : k + 1 + 1 < c.circuitBreakerConfig.MaxFailures := by omega
          simp [h, h2]
      · rw [if_neg hk]
        have h : c.circuitBreakerConfig.MaxFailures ≤ k + 1 + 1 := by omega
        have h2 : ¬ (k + 1 + 1 < c.circuitBreakerConfig.MaxFailures) := by omega
        simp [h, h2]

/-- Claim C3: starting Closed with consecutiveFailures = 0, fewer than
failureThreshold (MaxFailures) consecutive recordFailure calls leave the
breaker Closed and exactly failureThreshold calls move it to Open; one
recordSuccess while Closed resets the failure count to 0; and after
opening at time now, an Allow within the reset timeout is rejected and
DoWithRetry never invokes the operation. -/
theorem C3_breaker_threshold_and_reset (now : Int) (c : ResilientHTTPClient)
    (hs : c.state = CircuitState.Closed) (hf : c.failures = 0)
    (hT : 0 < c.circuitBreakerConfig.MaxFailures) :
    (∀ k, k < c.circuitBreakerConfig.MaxFailures →
      ((recordFailure now)^[k] c).state = CircuitState.Closed) ∧
    ((recordFailure now)^[c.circuitBreakerConfig.MaxFailures] c).state = CircuitState.Open ∧
    (recordSuccess c).failures = 0 ∧
    (∀ now2 : Int, now2 - now ≤ c.circuitBreakerConfig.ResetTimeout →
      (checkCircuitBreaker now2
          ((recordFailure now)^[c.circuitBreakerConfig.MaxFailures] c)).1 =
        some breakerOpenMsg) ∧
    (∀ (now2 nowEnd : Int) (outcomes : Nat → AttemptResult) (jit : Nat → ℚ),
      now2 - now ≤ c.circuitBreakerConfig.ResetTimeout →
      (DoWithRetry now2 nowEnd ((recordFailure now)^[c.circuitBreakerConfig.MaxFailures] c)
          outcomes jit).opCalls = 0) := by
  obtain ⟨T, hT2⟩ : ∃ T, c.circuitBreakerConfig.MaxFailures = T + 1 :=
    ⟨c.circuitBreakerConfig.MaxFailures - 1, by omega⟩
  have hOpen : (recordFailure now)^[c.circuitBreakerConfig.MaxFailures] c =
      { c with
        failures := c.circuitBreakerConfig.MaxFailures,
        lastFailTime := now,
        state := CircuitState.Open } := by
    conv_lhs => rw [hT2]
    rw [recordFailure_iterate_closed now c hs hf T]
    have h1 : ¬ (T + 1 < c.circuitBreakerConfig.MaxFailures) := by omega
    rw [if_neg h1, hT2]
  refine ⟨?_, ?_, rfl, ?_, ?_⟩
  · intro k hk
    cases k with
    | zero => simpa using hs
    | succ j =>
        rw [recordFailure_iterate_closed now c hs hf j]
        simp [hk]
  · rw [hOpen]
  · intro now2 h
    rw [hOpen]
    have h1 : ¬ (c.circuitBreakerConfig.ResetTimeout < now2 - now) := by omega
    simp [checkCircuitBreaker, h1]
  · intro now2 nowEnd outcomes jit h
    rw [hOpen]
    have h1 : ¬ (c.circuitBreakerConfig.ResetTimeout < now2 - now) := by omega
    simp [DoWithRetry, checkCircuitBreaker, h1]

theorem C3_breaker_threshold_and_reset_witness :
    exampleClient.state = CircuitState.Closed ∧
    0 < exampleClient.circuitBreakerConfig.MaxFailures ∧
    ((recordFailure 0)^[exampleClient.circuitBreakerConfig.MaxFailures] exampleClient).state =
      CircuitState.Open :=
  ⟨rfl, by decide,
    (C3_breaker_threshold_and_reset 0 exampleClient rfl rfl (by decide)).2.1⟩

/-- Claim C4 counterexample: with the breaker in Half-Open, two successive
Allow calls are both admitted — the code tracks no outstanding-trial
permit, so the second caller is not rejected. -/
theorem C4_counterexample :
    (checkCircuitBreaker 100 halfOpenClient).1 = none ∧
    (checkCircuitBreaker 100 (checkCircuitBreaker 100 halfOpenClient).2).1 = none :=
  ⟨rfl, rfl⟩

/-- Claim C4 (amended): while the breaker is Half-Open, checkCircuitBreaker
admits every call and leaves the client unchanged; no trial permit is
tracked, so any number of Half-Open trials may be outstanding, and the
Half-Open phase ends only when recordSuccess or recordFailure runs. -/
theorem C4_halfopen_admits_every_call (now : Int) (c : ResilientHTTPClient)
    (h : c.state = CircuitState.HalfOpen) :
    checkCircuitBreaker now c = (none, c) := by
  simp [checkCircuitBreaker, h]

theorem C4_halfopen_admits_every_call_witness :
    halfOpenClient.state = CircuitState.HalfOpen ∧
    checkCircuitBreaker 100 halfOpenClient = (none, halfOpenClient) :=
  ⟨rfl, C4_halfopen_admits_every_call 100 halfOpenClient rfl⟩

/-- Claim C5 counterexample: with the breaker opened at time 0 and reset
timeout 60000, an Allow at exactly now = 60000 (so now - openedAt =
resetTimeout) is still rejected and the state stays Open, although the
claim says the transition to Half-Open happens exactly at ≥ resetTimeout. -/
theorem C5_counterexample :
    openClient.circuitBreakerConfig.ResetTimeout ≤ (60000 : Int) - openClient.lastFailTime ∧
    (checkCircuitBreaker 60000 openClient).1 = some breakerOpenMsg ∧
    (checkCircuitBreaker 60000 openClient).2.state = CircuitState.Open :=
  ⟨by decide, rfl, rfl⟩

/-- Claim C5 (amended): when the breaker is Open, Allow rejects with the
breaker-open error for every call with now - openedAt ≤ resetTimeout, and
transitions to Half-Open (admitting the call) exactly when
now - openedAt > resetTimeout; in particular it never reaches Half-Open
before resetTimeout has elapsed since it opened. -/
theorem C5_open_to_halfopen_strict (now : Int) (c : ResilientHTTPClient)
    (h : c.state = CircuitState.Open) :
    (now - c.lastFailTime ≤ c.circuitBreakerConfig.ResetTimeout →
      checkCircuitBreaker now c = (some breakerOpenMsg, c)) ∧
    (c.circuitBreakerConfig.ResetTimeout < now - c.lastFailTime →
      checkCircuitBreaker now c = (none, { c with state := CircuitState.HalfOpen })) := by
  constructor
  · intro hle
    have h1 : ¬ (c.circuitBreakerConfig.ResetTimeout < now - c.lastFailTime) := by omega
    simp [checkCircuitBreaker, h, h1]
  · intro hlt
    simp [checkCircuitBreaker, h, hlt]

theorem C5_open_to_halfopen_strict_witness :
    openClient.state = CircuitState.Open ∧
    openClient.circuitBreakerConfig.ResetTimeout < (60001 : Int) - openClient.lastFailTime ∧
    checkCircuitBreaker 60001 openClient =
      (none, { openClient with state := CircuitState.HalfOpen }) :=
  ⟨rfl, by decide, (C5_open_to_halfopen_strict 60001 openClient rfl).2 (by decide)⟩

/-- A rejection by checkCircuitBreaker leaves the client unchanged: the
only rejecting branch is the Open state within the reset timeout, which
mutates nothing. -/
theorem checkCircuitBreaker_reject (now : Int) (c : ResilientHTTPClient) (msg : String)
    (h : (checkCircuitBreaker now c).1 = some msg) :
    checkCircuitBreaker now c = (some msg, c) := by
  cases hs : c.state with
  | Closed => simp [checkCircuitBreaker, hs] at h
  | HalfOpen => simp [checkCircuitBreaker, hs] at h
  | Open =>
      by_cases hlt : c.circuitBreakerConfig.ResetTimeout < now - c.lastFailTime
      · simp [checkCircuitBreaker, hs, hlt] at h
      · simp [checkCircuitBreaker, hs, hlt] at h ⊢
        exact h

/-- Claim C6: whenever the breaker check rejects, DoWithRetry returns the
breaker-open error immediately — the operation is never invoked, no sleep
happens, no failure or success is recorded, and the client (breaker state
and failure count) is unchanged. -/
theorem C6_breaker_rejection_path (now nowEnd : Int) (c : ResilientHTTPClient)
    (outcomes : Nat → AttemptResult) (jit : Nat → ℚ) (msg : String)
    (h : (checkCircuitBreaker now c).1 = some msg) :
    DoWithRetry now nowEnd c outcomes jit =
      ⟨RetryOutcome.breakerOpen msg, 0, [], c, 0, 0⟩ := by
  have hc := checkCircuitBreaker_reject now c msg h
  unfold DoWithRetry
  rw [hc]

theorem C6_breaker_rejection_path_witness :
    (checkCircuitBreaker 10 openClient).1 = some breakerOpenMsg ∧
    DoWithRetry 10 11 openClient (fun _ => AttemptResult.netErr boomMsg) (fun _ => 0) =
      ⟨RetryOutcome.breakerOpen breakerOpenMsg, 0, [], openClient, 0, 0⟩ :=
  ⟨rfl, C6_breaker_rejection_path 10 11 openClient (fun _ => AttemptResult.netErr boomMsg)
      (fun _ => 0) breakerOpenMsg rfl⟩

/-- Claim C10: recordSuccess is a full reset from every breaker state — it
sets the state to Closed and the failure count to 0 regardless of the
prior state, so a success recorded while Open closes the breaker at once:
the very next Allow is admitted, with no reset timeout and no Half-Open
trial involved. -/
theorem C10_recordSuccess_full_reset (now : Int) (c : ResilientHTTPClient) :
    (recordSuccess c).state = CircuitState.Closed ∧
    (recordSuccess c).failures = 0 ∧
    (recordSuccess c).lastFailTime = c.lastFailTime ∧
    checkCircuitBreaker now (recordSuccess c) = (none, recordSuccess c) := by
  refine ⟨rfl, rfl, rfl, ?_⟩
  simp [checkCircuitBreaker, recordSuccess]

/-- One step of the retry loop on a retryable failure: the attempt is
consumed, its error message is stored, the delay is slept for attempts
after the first, and the loop continues with the next attempt. -/
theorem retryLoop_step_retryable (c : ResilientHTTPClient) (outcomes : Nat → AttemptResult)
    (jit : Nat → ℚ) (attempt remaining : Nat) (lastErr : Option String)
    (sleeps : List ℚ) (calls : Nat)
    (hr : retryableFailure (outcomes attempt) = true) :
    retryLoop c outcomes jit attempt (remaining + 1) lastErr sleeps calls =
      retryLoop c outcomes jit (attempt + 1) remaining
        (some (attemptErrString (outcomes attempt)))
        (if 0 < attempt then sleeps ++ [calculateDelay c attempt (jit attempt)] else sleeps)
        (calls + 1) := by
  cases hm : outcomes attempt with
  | netErr msg => simp [retryLoop, hm]
  | httpResp status =>
      rw [hm] at hr
      unfold retryableFailure at hr
      rw [Bool.and_eq_true, Bool.not_eq_true'] at hr
      simp [retryLoop, hm, hr.1, hr.2]

/-- The retry loop when every attempt fails retryably, starting from any
attempt number at least 1: it consumes all remaining attempts, sleeps the
computed delay once per attempt, and ends carrying the error of the last
attempt. -/
theorem retryLoop_all_retryable (c : ResilientHTTPClient) (outcomes : Nat → AttemptResult)
    (jit : Nat → ℚ) (hr : ∀ n, retryableFailure (outcomes n) = true) :
    ∀ (remaining attempt0 : Nat) (lastErr0 : Option String) (sleeps0 : List ℚ) (calls0 : Nat),
      1 ≤ attempt0 →
      retryLoop c outcomes jit attempt0 remaining lastErr0 sleeps0 calls0 =
        ⟨none,
         if remaining = 0 then lastErr0
         else some (attemptErrString (outcomes (attempt0 + remaining - 1))),
         sleeps0 ++ (List.range remaining).map
           (fun i => calculateDelay c (attempt0 + i) (jit (attempt0 + i))),
         calls0 + remaining⟩ := by
  intro remaining
  induction remaining with
  | zero =>
      intro attempt0 lastErr0 sleeps0 calls0 _
      simp [retryLoop]
  | succ rem ih =>
      intro attempt0 lastErr0 sleeps0 calls0 ha
      rw [retryLoop_step_retryable c outcomes jit attempt0 rem lastErr0 sleeps0 calls0
        (hr attempt0)]
      rw [if_pos (by omega : 0 < attempt0)]
      rw [ih (attempt0 + 1) (some (attemptErrString (outcomes attempt0)))
        (sleeps0 ++ [calculateDelay c attempt0 (jit attempt0)]) (calls0 + 1) (by omega)]
      have hlast : (if rem = 0 then some (attemptErrString (outcomes attempt0))
          else some (attemptErrString (outcomes (attempt0 + 1 + rem - 1)))) =
          some (attemptErrString (outcomes (attempt0 + (rem + 1) - 1))) := by
        by_cases h0 : rem = 0
        · subst h0
          simp
        · rw [if_neg h0]
          have : attempt0 + 1 + rem - 1 = attempt0 + (rem + 1) - 1 := by omega
          rw [this]
      have harg : ∀ i : Nat, attempt0 + 1 + i = attempt0 + (i + 1) := by omega
      have hsleep : (sleeps0 ++ [calculateDelay c attempt0 (jit attempt0)]) ++
          (List.range rem).map
            (fun i => calculateDelay c (attempt0 + 1 + i) (jit (attempt0 + 1 + i))) =
          sleeps0 ++ (List.range (rem + 1)).map
            (fun i => calculateDelay c (attempt0 + i) (jit (attempt0 + i))) := by
        rw [List.append_assoc]
        congr 1
        rw [List.range_succ_eq_map]
        simp only [List.map_cons, List.map_map, Nat.add_zero, List.singleton_append, harg]
        refine congrArg (List.cons _) (List.map_congr_left ?_)
        intro i _
        simp [Function.comp, Nat.succ_eq_add_one]
      rw [hlast, hsleep]
      have hcalls : calls0 + 1 + rem = calls0 + (rem + 1) := by omega
      rw [hcalls]
      simp

/-- The whole retry loop of DoWithRetry (attempts 0..R) when every attempt
fails retryably: no success, R + 1 operation calls, one sleep before each
attempt after the first (attempt numbers 1..R), and the error of the last
attempt stored. -/
theorem retryLoop_from_zero_all_retryable (c : ResilientHTTPClient)
    (outcomes : Nat → AttemptResult) (jit : Nat → ℚ)
    (hr : ∀ n, retryableFailure (outcomes n) = true) (R : Nat) :
    retryLoop c outcomes jit 0 (R + 1) none [] 0 =
      ⟨none, some (attemptErrString (outcomes R)),
       (List.range R).map (fun i => calculateDelay c (i + 1) (jit (i + 1))), R + 1⟩ := by
  rw [retryLoop_step_retryable c outcomes jit 0 R none [] 0 (hr 0)]
  rw [retryLoop_all_retryable c outcomes jit hr R 1
    (some (attemptErrString (outcomes 0)))
    (if 0 < 0 then [] ++ [calculateDelay c 0 (jit 0)] else []) 1 (le_refl 1)]
  have harg : ∀ i : Nat, 1 + i = i + 1 := fun i => Nat.add_comm 1 i
  by_cases h0 : R = 0
  · subst h0
    simp
  · have h1 : 1 + R - 1 = R := by omega
    simp [h0, h1, harg]

/-- Claim C2: when the breaker admits (state Closed) and every attempt
fails with a retryable failure, DoWithRetry performs exactly
MaxRetries + 1 attempts (the maxAttempts of the spec), sleeps the computed
backoff delay before each attempt after the first (attempt numbers
1..MaxRetries), calls recordFailure exactly once and recordSuccess never,
and returns the aggregated error naming MaxRetries + 1 attempts and
wrapping the error of the last attempt; concretely, with maxAttempts = 3
(MaxRetries = 2), base delay 100 ms and multiplier 2, the pre-jitter
delays are 100 ms and 200 ms. -/
theorem C2_retry_exhaustion (now nowEnd : Int) (c : ResilientHTTPClient)
    (outcomes : Nat → AttemptResult) (jit : Nat → ℚ)
    (hb : c.state = CircuitState.Closed)
    (hr : ∀ n, retryableFailure (outcomes n) = true) :
    DoWithRetry now nowEnd c outcomes jit =
      ⟨RetryOutcome.failed (c.retryConfig.MaxRetries + 1)
          (some (attemptErrString (outcomes c.retryConfig.MaxRetries))),
        c.retryConfig.MaxRetries + 1,
        (List.range c.retryConfig.MaxRetries).map
          (fun i => calculateDelay c (i + 1) (jit (i + 1))),
        recordFailure nowEnd c, 1, 0⟩ ∧
    (List.range exampleClient.retryConfig.MaxRetries).map
        (fun i => calculateDelay exampleClient (i + 1) 0) = [100, 200] := by
  constructor
  · have hcheck : checkCircuitBreaker now c = (none, c) := by
      simp [checkCircuitBreaker, hb]
    unfold DoWithRetry
    rw [hcheck, retryLoop_from_zero_all_retryable c outcomes jit hr c.retryConfig.MaxRetries]
  · norm_num [exampleClient, calculateDelay, List.range_succ]

theorem C2_retry_exhaustion_witness :
    DoWithRetry 0 1 exampleClient (fun _ => AttemptResult.netErr boomMsg) (fun _ => 0) =
      ⟨RetryOutcome.failed (exampleClient.retryConfig.MaxRetries + 1)
          (some (attemptErrString (AttemptResult.netErr boomMsg))),
        exampleClient.retryConfig.MaxRetries + 1,
        (List.range exampleClient.retryConfig.MaxRetries).map
          (fun i => calculateDelay exampleClient (i + 1) 0),
        recordFailure 1 exampleClient, 1, 0⟩ ∧
    (List.range exampleClient.retryConfig.MaxRetries).map
        (fun i => calculateDelay exampleClient (i + 1) 0) = [100, 200] :=
  ⟨(C2_retry_exhaustion 0 1 exampleClient (fun _ => AttemptResult.netErr boomMsg)
      (fun _ => 0) rfl (fun _ => rfl)).1,
    (C2_retry_exhaustion 0 1 exampleClient (fun _ => AttemptResult.netErr boomMsg)
      (fun _ => 0) rfl (fun _ => rfl)).2⟩

/-- Claim C7: for every attempt number n ≥ 1 and every jitter draw r in
[0, 1) (so the jitter fraction r / 10 lies in [0, 0.1)), with nonnegative
base and max delay and multiplier at least 1, the computed delay is
nonnegative and never exceeds MaxDelay, and the deterministic component
(jitter ignored) is monotonically nondecreasing in the attempt number. -/
theorem C7_delay_bounds (c : ResilientHTTPClient) (n m : Nat) (r : ℚ)
    (hn : 1 ≤ n) (hnm : n ≤ m)
    (hbase : 0 ≤ c.retryConfig.BaseDelay) (hmult : 1 ≤ c.retryConfig.Multiplier)
    (hmax : 0 ≤ c.retryConfig.MaxDelay) (hr0 : 0 ≤ r) (_hr1 : r < 1) :
    0 ≤ calculateDelay c n r ∧ calculateDelay c n r ≤ c.retryConfig.MaxDelay ∧
    calculateDelayDet c n ≤ calculateDelayDet c m := by
  have hpow : (0:ℚ) ≤ c.retryConfig.Multiplier ^ (n - 1) :=
    pow_nonneg (le_trans zero_le_one hmult) _
  have hdet : (0:ℚ) ≤ c.retryConfig.BaseDelay * c.retryConfig.Multiplier ^ (n - 1) :=
    mul_nonneg hbase hpow
  have hjit : (0:ℚ) ≤ r * (1 / 10) *
      (c.retryConfig.BaseDelay * c.retryConfig.Multiplier ^ (n - 1)) :=
    mul_nonneg (mul_nonneg hr0 (by norm_num)) hdet
  have hd2 : (0:ℚ) ≤ c.retryConfig.BaseDelay * c.retryConfig.Multiplier ^ (n - 1) +
      r * (1 / 10) * (c.retryConfig.BaseDelay * c.retryConfig.Multiplier ^ (n - 1)) :=
    add_nonneg hdet hjit
  refine ⟨?_, ?_, ?_⟩
  · simp only [calculateDelay]
    split
    · exact hmax
    · exact hd2
  · simp only [calculateDelay]
    split
    · exact le_refl _
    · next h => exact le_of_not_lt h
  · unfold calculateDelayDet
    exact mul_le_mul_of_nonneg_left (pow_le_pow_right₀ hmult (by omega)) hbase

theorem C7_delay_bounds_witness :
    0 ≤ calculateDelay exampleClient 1 (1 / 2) ∧
    calculateDelay exampleClient 1 (1 / 2) ≤ exampleClient.retryConfig.MaxDelay ∧
    calculateDelayDet exampleClient 1 ≤ calculateDelayDet exampleClient 2 :=
  C7_delay_bounds exampleClient 1 2 (1 / 2) (le_refl 1) (by norm_num)
    (by norm_num [exampleClient]) (by norm_num [exampleClient])
    (by norm_num [exampleClient]) (by norm_num) (by norm_num)

/-- Claim C1 counterexample: pool of capacity 1, two Acquire calls with
every connection healthy — after the second Get, two handles are checked
out and the channel is empty, so checked out plus available is 2 and
exceeds the capacity 1; moreover nextId is 2, i.e. the factory dialed a
second handle while capacity handles were already live. -/
theorem C1_counterexample :
    ((runPoolOps (fun _ => true) [PoolOp.acquire, PoolOp.acquire]
        ⟨NewGRPCConnectionPool 1, []⟩).checkedOut.length +
      (runPoolOps (fun _ => true) [PoolOp.acquire, PoolOp.acquire]
        ⟨NewGRPCConnectionPool 1, []⟩).pool.available.length = 2) ∧
    (runPoolOps (fun _ => true) [PoolOp.acquire, PoolOp.acquire]
        ⟨NewGRPCConnectionPool 1, []⟩).pool.nextId = 2 ∧
    (NewGRPCConnectionPool 1).capacity = 1 := by
  decide

/-- Get never grows the channel and never touches the capacity. -/
theorem Get_inv (healthy : Nat → Bool) (p : GRPCConnectionPool) :
    (GRPCConnectionPool.Get healthy p).2.capacity = p.capacity ∧
    (GRPCConnectionPool.Get healthy p).2.available.length ≤ p.available.length := by
  unfold GRPCConnectionPool.Get
  by_cases hc : p.closed = true
  · simp [hc]
  · simp only [hc, if_false, Bool.false_eq_true]
    cases hp : p.available with
    | nil => simp [hp]
    | cons conn rest =>
        by_cases hh : healthy conn = true
        · simp [hp, hh]
        · simp [hp, hh]

/-- Put keeps the channel within capacity and never touches the capacity. -/
theorem Put_inv (p : GRPCConnectionPool) (conn : Nat)
    (h : p.available.length ≤ p.capacity) :
    (GRPCConnectionPool.Put p conn).capacity = p.capacity ∧
    (GRPCConnectionPool.Put p conn).available.length ≤ p.capacity := by
  unfold GRPCConnectionPool.Put
  by_cases hc : p.closed = true
  · simp [hc, h]
  · by_cases hl : p.available.length < p.capacity
    · refine ⟨by simp [hc, hl], ?_⟩
      simp only [hc, hl, if_true, if_false, Bool.false_eq_true, List.length_append,
        List.length_singleton]
      omega
    · simp [hc, hl, h]

/-- The pool component of an acquire step is the pool component of Get. -/
theorem acquire_pool (healthy : Nat → Bool) (s : PoolSim) :
    (s.acquire healthy).pool = (GRPCConnectionPool.Get healthy s.pool).2 := by
  unfold PoolSim.acquire
  rcases hg : GRPCConnectionPool.Get healthy s.pool with ⟨o, p⟩
  cases o <;> simp

/-- A release step keeps the channel within capacity and the capacity. -/
theorem release_inv (s : PoolSim)
    (h : s.pool.available.length ≤ s.pool.capacity) :
    s.release.pool.capacity = s.pool.capacity ∧
    s.release.pool.available.length ≤ s.pool.capacity := by
  unfold PoolSim.release
  cases hco : s.checkedOut with
  | nil => exact ⟨rfl, h⟩
  | cons conn rest =>
      obtain ⟨h1, h2⟩ := Put_inv s.pool conn h
      exact ⟨h1, h2⟩

/-- Running any sequence of pool operations preserves the channel bound
and the capacity. -/
theorem runPoolOps_available_le (healthy : Nat → Bool) (ops : List PoolOp) :
    ∀ s : PoolSim, s.pool.available.length ≤ s.pool.capacity →
      (runPoolOps healthy ops s).pool.available.length ≤
        (runPoolOps healthy ops s).pool.capacity ∧
      (runPoolOps healthy ops s).pool.capacity = s.pool.capacity := by
  induction ops with
  | nil => intro s h; exact ⟨h, rfl⟩
  | cons op rest ih =>
      intro s h
      cases op with
      | acquire =>
          obtain ⟨g1, g2⟩ := Get_inv healthy s.pool
          have hp := acquire_pool healthy s
          have h3 : (s.acquire healthy).pool.available.length ≤
              (s.acquire healthy).pool.capacity := by
            rw [hp, g1]
            exact le_trans g2 h
          obtain ⟨h4, h5⟩ := ih (s.acquire healthy) h3
          refine ⟨h4, ?_⟩
          rw [runPoolOps, h5, hp, g1]
      | release =>
          obtain ⟨r1, r2⟩ := release_inv s h
          have h3 : s.release.pool.available.length ≤ s.release.pool.capacity := by
            rw [r1]
            exact r2
          obtain ⟨h4, h5⟩ := ih s.release h3
          refine ⟨h4, ?_⟩
          rw [runPoolOps, h5, r1]

/-- Claim C1 (amended): for every sequence of Get and Put operations on a
pool of capacity > 0, the available channel never holds more than capacity
connections (Put closes the connection when the channel is full); Get,
however, does not bound live handles — on an empty channel, or an
unhealthy popped connection, it dials a fresh connection via the factory
regardless of how many handles are checked out, so checked out plus
available can exceed capacity (see the counterexample). -/
theorem C1_pool_available_bounded (healthy : Nat → Bool) (ops : List PoolOp) (cap : Nat)
    (_hcap : 0 < cap) :
    (runPoolOps healthy ops ⟨NewGRPCConnectionPool cap, []⟩).pool.available.length ≤ cap := by
  have h0 : (⟨NewGRPCConnectionPool cap, []⟩ : PoolSim).pool.available.length ≤
      (⟨NewGRPCConnectionPool cap, []⟩ : PoolSim).pool.capacity := by
    simp [NewGRPCConnectionPool]
  obtain ⟨h1, h2⟩ := runPoolOps_available_le healthy ops ⟨NewGRPCConnectionPool cap, []⟩ h0
  rw [h2] at h1
  exact h1

theorem C1_pool_available_bounded_witness :
    0 < 1 ∧
    (runPoolOps (fun _ => true) [PoolOp.acquire, PoolOp.release, PoolOp.acquire]
        ⟨NewGRPCConnectionPool 1, []⟩).pool.available.length ≤ 1 :=
  ⟨by decide,
    C1_pool_available_bounded (fun _ => true)
      [PoolOp.acquire, PoolOp.release, PoolOp.acquire] 1 (by decide)⟩

/-- When lookupKey finds k, eraseKey removes exactly one element. -/
theorem eraseKey_length_of_lookup {V : Type} (k : String) (l : List (String × V)) (v : V)
    (h : lookupKey k l = some v) : (eraseKey k l).length + 1 = l.length := by
  induction l with
  | nil => simp [lookupKey] at h
  | cons e es ih =>
      by_cases he : e.1 = k
      · simp [eraseKey, he]
      · have h2 : lookupKey k es = some v := by
          simpa [lookupKey, he] using h
        have h3 := ih h2
        simp only [eraseKey, he, if_false, List.length_cons]
        omega

/-- Put keeps the entry count within capacity and the capacity itself. -/
theorem Put_length_le {V : Type} (lru : LRUCache V) (k : String) (v : V)
    (h : lru.entries.length ≤ lru.capacity) :
    (lru.Put k v).capacity = lru.capacity ∧
    (lru.Put k v).entries.length ≤ lru.capacity := by
  unfold LRUCache.Put
  cases hl : lookupKey k lru.entries with
  | some w =>
      have h2 := eraseKey_length_of_lookup k lru.entries w hl
      refine ⟨rfl, ?_⟩
      simp only [List.length_cons]
      omega
  | none =>
      by_cases hcap : lru.capacity < lru.entries.length + 1
      · refine ⟨by simp [hcap], ?_⟩
        simp only [hcap, if_true, List.length_dropLast, List.length_cons]
        omega
      · refine ⟨by simp [hcap], ?_⟩
        simp only [hcap, if_false, List.length_cons]
        omega

/-- Get keeps the entry count within capacity and the capacity itself. -/
theorem Get_length_le {V : Type} (lru : LRUCache V) (k : String)
    (h : lru.entries.length ≤ lru.capacity) :
    ((lru.Get k).2).capacity = lru.capacity ∧
    ((lru.Get k).2).entries.length ≤ lru.capacity := by
  unfold LRUCache.Get
  cases hl : lookupKey k lru.entries with
  | none => exact ⟨rfl, h⟩
  | some w =>
      have h2 := eraseKey_length_of_lookup k lru.entries w hl
      refine ⟨rfl, ?_⟩
      simp only [List.length_cons]
      omega

/-- Running any sequence of cache operations preserves the size bound and
the capacity. -/
theorem runCacheOps_size_le {V : Type} (ops : List (CacheOp V)) :
    ∀ lru : LRUCache V, lru.entries.length ≤ lru.capacity →
      (runCacheOps ops lru).entries.length ≤ (runCacheOps ops lru).capacity ∧
      (runCacheOps ops lru).capacity = lru.capacity := by
  induction ops with
  | nil => intro lru h; exact ⟨h, rfl⟩
  | cons op rest ih =>
      intro lru h
      cases op with
      | put k v =>
          obtain ⟨h1, h2⟩ := Put_length_le lru k v h
          have h3 : (lru.Put k v).entries.length ≤ (lru.Put k v).capacity := by
            rw [h1]
            exact h2
          obtain ⟨h4, h5⟩ := ih (lru.Put k v) h3
          refine ⟨h4, ?_⟩
          rw [runCacheOps, h5, h1]
      | get k =>
          obtain ⟨h1, h2⟩ := Get_length_le lru k h
          have h3 : (lru.Get k).2.entries.length ≤ (lru.Get k).2.capacity := by
            rw [h1]
            exact h2
          obtain ⟨h4, h5⟩ := ih (lru.Get k).2 h3
          refine ⟨h4, ?_⟩
          rw [runCacheOps, h5, h1]

/-- Claim C8: for every operation sequence on an LRU cache of capacity
cap > 0 starting empty, the entry count never exceeds cap; when a Put of a
new key finds the cache full, the evicted entry is exactly the back of the
recency list, i.e. the least recently touched entry (the entry list is
ordered most recently touched first); and in the concrete capacity-2
scenario Put a 1, Put b 2, Get a, Put c 3, the key b is evicted, leaving
exactly the entries c (most recent) and a. -/
theorem C8_lru_capacity_and_eviction (cap : Nat) (_hcap : 0 < cap) :
    (∀ ops : List (CacheOp Nat),
      (runCacheOps ops ⟨cap, []⟩).entries.length ≤ cap) ∧
    (∀ (V : Type) (lru : LRUCache V) (k : String) (v : V),
      lookupKey k lru.entries = none →
      lru.entries.length = lru.capacity → 0 < lru.capacity →
      (lru.Put k v).entries = (k, v) :: lru.entries.dropLast) ∧
    runCacheOps [CacheOp.put keyA 1, CacheOp.put keyB 2, CacheOp.get keyA, CacheOp.put keyC 3]
        (⟨2, []⟩ : LRUCache Nat) = ⟨2, [(keyC, 3), (keyA, 1)]⟩ := by
  refine ⟨?_, ?_, by decide⟩
  · intro ops
    have h0 : (⟨cap, []⟩ : LRUCache Nat).entries.length ≤
        (⟨cap, []⟩ : LRUCache Nat).capacity := by
      simp
    obtain ⟨h1, h2⟩ := runCacheOps_size_le ops ⟨cap, []⟩ h0
    rw [h2] at h1
    exact h1
  · intro V lru k v hl hlen hpos
    unfold LRUCache.Put
    rw [hl]
    have hc : lru.capacity < ((k, v) :: lru.entries).length := by
      simp only [List.length_cons]
      omega
    simp only [hc, if_true]
    cases hent : lru.entries with
    | nil =>
        rw [hent] at hlen
        simp at hlen
        omega
    | cons e es => simp [List.dropLast]

theorem C8_lru_capacity_and_eviction_witness :
    0 < 2 ∧
    runCacheOps [CacheOp.put keyA 1, CacheOp.put keyB 2, CacheOp.get keyA, CacheOp.put keyC 3]
        (⟨2, []⟩ : LRUCache Nat) = ⟨2, [(keyC, 3), (keyA, 1)]⟩ :=
  ⟨by decide, (C8_lru_capacity_and_eviction 2 (by decide)).2.2⟩

/-- Claim C9: on a cache of capacity > 0, Put k v immediately followed by
Get k returns v — the fresh entry is pushed to the front (most recently
used), so the eviction triggered by its own insertion, which removes the
back, can never remove it. -/
theorem C9_lru_roundtrip {V : Type} (lru : LRUCache V) (k : String) (v : V)
    (hcap : 0 < lru.capacity) :
    ((lru.Put k v).Get k).1 = some v := by
  unfold LRUCache.Put
  cases hl : lookupKey k lru.entries with
  | some w => simp [LRUCache.Get, lookupKey]
  | none =>
      by_cases hcl : lru.capacity < lru.entries.length + 1
      · have hne : lru.entries ≠ [] := by
          intro he
          rw [he] at hcl
          simp at hcl
          omega
        cases hent : lru.entries with
        | nil => exact absurd hent hne
        | cons e es =>
            rw [hent] at hcl
            simp only [List.length_cons] at hcl
            dsimp only
            simp only [List.length_cons]
            rw [if_pos hcl]
            simp [LRUCache.Get, lookupKey]
      · dsimp only
        simp only [List.length_cons]
        rw [if_neg hcl]
        simp [LRUCache.Get, lookupKey]

theorem C9_lru_roundtrip_witness :
    0 < (⟨1, []⟩ : LRUCache Nat).capacity ∧
    (((⟨1, []⟩ : LRUCache Nat).Put keyA 5).Get keyA).1 = some 5 :=
  ⟨by decide, C9_lru_roundtrip ⟨1, []⟩ keyA 5 (by decide)⟩
